import Mathlib

/-!
# Verification of `Portfolio_Beta_Weighting.py`

A shallow embedding of the portfolio beta-weighting script into Lean 4.
Machine floats are modelled by real numbers (`ℝ`); pandas/numpy payloads
are modelled explicitly:

* a downloaded pandas DataFrame is modelled by a `Payload` carrying the
  optional `Adj Close` and `Close` columns (the network fetch itself is the
  external collaborator and is out of scope);
* a price-table row is a total function `String → ℝ` from ticker to price
  (`.dropna()` removes incomplete rows, so post-retrieval rows are total);
* a Python ordered dict `{ticker: shares}` is a function `Fin n → String × ℝ`;
* `scipy.stats.linregress` is modelled from the scipy source: empty-input
  check, identical-x check, then slope `ssxym / ssxm` and correlation
  `ssxym / sqrt (ssxm * ssym)` (clipped to `[-1, 1]`, zero when the
  denominator vanishes) with the `bias=1` covariance moments;
* `np.round(·, 0)` rounds half to even.

Exceptions (`raise ValueError`) are modelled by `Except PbwError`.
-/

/-- The `ValueError`s the script (and the scipy routine it calls) can raise. -/
inductive PbwError where
  /-- "Neither 'Adj Close' nor 'Close' columns found in the data" -/
  | noPriceColumns
  /-- scipy `linregress`: "Inputs must not be empty." -/
  | emptyInput
  /-- scipy `linregress`: "Cannot calculate a linear regression
      if all x values are identical" -/
  | identicalX
  deriving DecidableEq, Repr

/-- A downloaded price payload: the optional `Adj Close` and `Close`
columns of the DataFrame returned by `yf.download`. -/
structure Payload (α : Type) where
  adjClose : Option α
  close : Option α

/-- The `Adj Close` / `Close` selection performed inline in
`portfolio_beta_weighting` (source lines 36–41): prefer `Adj Close`,
fall back to `Close`, raise otherwise. -/
def selectPriceColumn {α : Type} (data : Payload α) : Except PbwError α :=
  match data.adjClose with
  | some v => .ok v
  | none =>
    match data.close with
    | some v => .ok v
    | none => .error .noPriceColumns

/-- Model of `get_historical_data` (source lines 7–15): prefer the `Adj Close`
column, fall back to `Close`, raise otherwise.  The download and the
`.dropna()` row filter belong to the external retrieval collaborator;
rows are modelled as already complete. -/
def get_historical_data {α : Type} (data : Payload α) : Except PbwError α :=
  match data.adjClose with
  | some v => .ok v
  | none =>
    match data.close with
    | some v => .ok v
    | none => .error .noPriceColumns

/-- Model of `calculate_returns` (source lines 17–19):
`np.log(data / data.shift(1)).dropna()`.  Row `t` of the result is
`fun ticker => ln (data[t+1] ticker / data[t] ticker)`; the first row of the
division is all-NaN (no prior row) and is removed by `.dropna()`, which the
`zip` with the tail realizes.  The function is total: the source has no
row-count check and raises nothing. -/
noncomputable def calculate_returns (data : List (String → ℝ)) :
    List (String → ℝ) :=
  (data.zip data.tail).map fun pr => fun ticker => Real.log (pr.2 ticker / pr.1 ticker)

/-- The `np.mean` of a list. -/
noncomputable def npMean (l : List ℝ) : ℝ := l.sum / l.length

/-- An entry of `np.cov(x, y, bias=1)`: the average product of deviations
from the means, `Σ (xᵢ - x̄) * (yᵢ - ȳ) / n`.  `covB x x` is `ssxm`,
`covB x y` is `ssxym`, `covB y y` is `ssym` in the scipy source. -/
noncomputable def covB (x y : List ℝ) : ℝ :=
  ((x.zip y).map fun p => (p.1 - npMean x) * (p.2 - npMean y)).sum / x.length

/-- The `np.amax` of a nonempty list (scipy only applies it after the
empty-input check; the `[]` value is irrelevant). -/
def npamax : List ℝ → ℝ
  | [] => 0
  | a :: l => l.foldl max a

/-- The `np.amin` of a nonempty list. -/
def npamin : List ℝ → ℝ
  | [] => 0
  | a :: l => l.foldl min a

/-- The correlation coefficient computed by `scipy.stats.linregress`:
`r = ssxym / sqrt (ssxm * ssym)`, set to `0` when the denominator is `0`
and clipped to `[-1, 1]` against numerical error. -/
noncomputable def rValue (x y : List ℝ) : ℝ :=
  if Real.sqrt (covB x x * covB y y) = 0 then 0
  else if 1 < covB x y / Real.sqrt (covB x x * covB y y) then 1
  else if covB x y / Real.sqrt (covB x x * covB y y) < -1 then -1
  else covB x y / Real.sqrt (covB x x * covB y y)

/-- Model of `scipy.stats.linregress x y`, restricted to the two outputs the script
destructures and uses (`slope`, `r_value`).  Modelled from the scipy
source: raise on empty inputs; raise when all `x` values are identical and
`len(x) > 1` (the test `np.amax(x) == np.amin(x)`); otherwise
`slope = ssxym / ssxm` and `r` as in `rValue`. -/
noncomputable def linregress (x y : List ℝ) : Except PbwError (ℝ × ℝ) :=
  if x.length = 0 ∨ y.length = 0 then .error .emptyInput
  else if npamax x = npamin x ∧ 1 < x.length then .error .identicalX
  else .ok (covB x y / covB x x, rValue x y)

/-- Model of `calculate_beta` (source lines 21–24):
`slope, _, r_value, _, _ = linregress(benchmark_returns, asset_returns)`,
returning `(slope, r_value ** 2)`. -/
noncomputable def calculate_beta (asset_returns benchmark_returns : List ℝ) :
    Except PbwError (ℝ × ℝ) :=
  (linregress benchmark_returns asset_returns).map fun sr => (sr.1, sr.2 ^ 2)

/-- Round half to even, the rounding mode of `np.round`. -/
noncomputable def roundHalfEven (x : ℝ) : ℤ :=
  if x - ⌊x⌋ < 1 / 2 then ⌊x⌋
  else if 1 / 2 < x - ⌊x⌋ then ⌊x⌋ + 1
  else if Even ⌊x⌋ then ⌊x⌋ else ⌊x⌋ + 1

/-- The model of `np.round(x, 0)`: round half to even, result still a float. -/
noncomputable def npRound (x : ℝ) : ℝ := (roundHalfEven x : ℤ)

/-- Sequence a family of `Except` computations in index order, stopping at
the first error: the model of the Python `for ticker in portfolio` loop
that calls a raising function on each ticker. -/
def gatherExcept {ε α : Type} : {n : ℕ} → (Fin n → Except ε α) → Except ε (Fin n → α)
  | 0, _ => .ok fun i => i.elim0
  | _ + 1, f =>
    match f 0 with
    | .error e => .error e
    | .ok a =>
      match gatherExcept fun i => f i.succ with
      | .error e => .error e
      | .ok rest => .ok (Fin.cons a rest)

/-- One row of the `results` DataFrame (source lines 67–79). -/
structure ResultRow where
  ticker : String
  currentShares : ℝ
  currentPrice : ℝ
  beta : ℝ
  currentWeight : ℝ
  adjustedWeight : ℝ
  newShares : ℝ

/-- The `positions` dict (source lines 43–44): dollar position per ticker,
`shares * current_prices[ticker]`. -/
noncomputable def positionsOf {n : ℕ} (portfolio : Fin n → String × ℝ)
    (current_prices : String → ℝ) : Fin n → ℝ :=
  fun i => (portfolio i).2 * current_prices (portfolio i).1

/-- The `current_weights` array (source line 58): positions divided by the
caller-supplied `total_portfolio_value`. -/
noncomputable def current_weightsOf {n : ℕ} (portfolio : Fin n → String × ℝ)
    (current_prices : String → ℝ) (total_portfolio_value : ℝ) : Fin n → ℝ :=
  fun i => positionsOf portfolio current_prices i / total_portfolio_value

/-- The `current_beta` scalar (source line 59): `np.dot` of betas and current weights. -/
noncomputable def current_betaOf {n : ℕ} (betas current_weights : Fin n → ℝ) : ℝ :=
  ∑ i, betas i * current_weights i

/-- The `new_weights` array (source line 63): current weights scaled by
`beta_adjustment = target_beta / current_beta`. -/
noncomputable def new_weightsOf {n : ℕ} (current_weights : Fin n → ℝ)
    (beta_adjustment : ℝ) : Fin n → ℝ :=
  fun i => current_weights i * beta_adjustment

/-- The `normalized_weights` array (source line 64): `new_weights / new_weights.sum()`. -/
noncomputable def normalized_weightsOf {n : ℕ} (new_weights : Fin n → ℝ) : Fin n → ℝ :=
  fun i => new_weights i / ∑ j, new_weights j

/-- The per-ticker beta computation of the loop at source lines 52–55,
including the column extraction `returns[ticker]` and `returns['SPY']`
(source lines 48–49); only the slope is kept (`betas[ticker] = beta`). -/
noncomputable def betaFn {n : ℕ} (portfolio : Fin n → String × ℝ)
    (data : List (String → ℝ)) : Fin n → Except PbwError ℝ :=
  fun i =>
    (calculate_beta ((calculate_returns data).map fun row => row (portfolio i).1)
      ((calculate_returns data).map fun row => row "SPY")).map Prod.fst

/-- The `results` DataFrame (source lines 62–79), given the selected
current prices and the computed betas: the beta adjustment, weight
renormalization, and the rounded new share counts. -/
noncomputable def resultRows {n : ℕ} (portfolio : Fin n → String × ℝ)
    (total_portfolio_value target_beta : ℝ) (current_prices : String → ℝ)
    (betas : Fin n → ℝ) : Fin n → ResultRow :=
  let current_weights := current_weightsOf portfolio current_prices total_portfolio_value
  let current_beta := current_betaOf betas current_weights
  let beta_adjustment := target_beta / current_beta
  let new_weights := new_weightsOf current_weights beta_adjustment
  let normalized_weights := normalized_weightsOf new_weights
  fun i =>
    { ticker := (portfolio i).1
      currentShares := (portfolio i).2
      currentPrice := current_prices (portfolio i).1
      beta := betas i
      currentWeight := current_weights i
      adjustedWeight := normalized_weights i
      newShares := npRound (normalized_weights i * total_portfolio_value /
        current_prices (portfolio i).1) }

/-- Model of `portfolio_beta_weighting` (source lines 26–81), as a function of the
two downloaded payloads: select the current-price column (lines 36–41),
fetch and select historical data (line 47), compute returns and per-ticker
betas (lines 48–55, raising errors in ticker order), then build the
results table. -/
noncomputable def portfolio_beta_weighting {n : ℕ} (portfolio : Fin n → String × ℝ)
    (total_portfolio_value target_beta : ℝ)
    (currentData : Payload (String → ℝ))
    (histData : Payload (List (String → ℝ))) :
    Except PbwError (Fin n → ResultRow) :=
  match selectPriceColumn currentData with
  | .error e => .error e
  | .ok current_prices =>
    match get_historical_data histData with
    | .error e => .error e
    | .ok data =>
      match gatherExcept (betaFn portfolio data) with
      | .error e => .error e
      | .ok betas =>
        .ok (resultRows portfolio total_portfolio_value target_beta current_prices betas)

/-! ## Helper lemmas -/

lemma le_foldl_max (l : List ℝ) (b : ℝ) : b ≤ l.foldl max b := by
  induction l generalizing b with
  | nil => exact le_refl b
  | cons a t ih => exact le_trans (le_max_left b a) (ih (max b a))

lemma mem_le_foldl_max {l : List ℝ} {x : ℝ} (h : x ∈ l) (b : ℝ) :
    x ≤ l.foldl max b := by
  induction l generalizing b with
  | nil => cases h
  | cons a t ih =>
    rcases List.mem_cons.mp h with rfl | hx
    · exact le_trans (le_max_right b x) (le_foldl_max t (max b x))
    · exact ih hx (max b a)

lemma foldl_min_le (l : List ℝ) (b : ℝ) : l.foldl min b ≤ b := by
  induction l generalizing b with
  | nil => exact le_refl b
  | cons a t ih => exact le_trans (ih (min b a)) (min_le_left b a)

lemma foldl_min_le_mem {l : List ℝ} {x : ℝ} (h : x ∈ l) (b : ℝ) :
    l.foldl min b ≤ x := by
  induction l generalizing b with
  | nil => cases h
  | cons a t ih =>
    rcases List.mem_cons.mp h with rfl | hx
    · exact le_trans (foldl_min_le t (min b x)) (min_le_right b x)
    · exact ih hx (min b a)

lemma le_npamax {l : List ℝ} {x : ℝ} (h : x ∈ l) : x ≤ npamax l := by
  cases l with
  | nil => cases h
  | cons a t =>
    rcases List.mem_cons.mp h with rfl | hx
    · exact le_foldl_max t x
    · exact mem_le_foldl_max hx a

lemma npamin_le {l : List ℝ} {x : ℝ} (h : x ∈ l) : npamin l ≤ x := by
  cases l with
  | nil => cases h
  | cons a t =>
    rcases List.mem_cons.mp h with rfl | hx
    · exact foldl_min_le t x
    · exact foldl_min_le_mem hx a

lemma eq_npamin_of_npamax_eq_npamin {l : List ℝ} (h : npamax l = npamin l)
    {x : ℝ} (hx : x ∈ l) : x = npamin l :=
  le_antisymm (h ▸ le_npamax hx) (npamin_le hx)

lemma foldl_max_const {l : List ℝ} {c : ℝ} (h : ∀ x ∈ l, x = c) :
    l.foldl max c = c := by
  induction l with
  | nil => rfl
  | cons a t ih =>
    have ha : a = c := h a (List.mem_cons_self a t)
    simp only [List.foldl_cons, ha, max_self]
    exact ih fun x hx => h x (List.mem_cons_of_mem a hx)

lemma foldl_min_const {l : List ℝ} {c : ℝ} (h : ∀ x ∈ l, x = c) :
    l.foldl min c = c := by
  induction l with
  | nil => rfl
  | cons a t ih =>
    have ha : a = c := h a (List.mem_cons_self a t)
    simp only [List.foldl_cons, ha, min_self]
    exact ih fun x hx => h x (List.mem_cons_of_mem a hx)

lemma npamax_eq_npamin_of_const {l : List ℝ} {c : ℝ} (h : ∀ x ∈ l, x = c) :
    npamax l = npamin l := by
  cases l with
  | nil => rfl
  | cons a t =>
    have ha : a = c := h a (List.mem_cons_self a t)
    have ht : ∀ x ∈ t, x = c := fun x hx => h x (List.mem_cons_of_mem a hx)
    show t.foldl max a = t.foldl min a
    rw [ha, foldl_max_const ht, foldl_min_const ht]

lemma list_sum_const {l : List ℝ} {c : ℝ} (h : ∀ x ∈ l, x = c) :
    l.sum = l.length * c := by
  induction l with
  | nil => simp
  | cons a t ih =>
    have ha : a = c := h a (List.mem_cons_self a t)
    have ht : ∀ x ∈ t, x = c := fun x hx => h x (List.mem_cons_of_mem a hx)
    rw [List.sum_cons, ha, ih ht, List.length_cons]
    push_cast
    ring

lemma npMean_const {l : List ℝ} {c : ℝ} (h : ∀ x ∈ l, x = c) (hl : l ≠ []) :
    npMean l = c := by
  have hlen : (l.length : ℝ) ≠ 0 := by
    simpa using List.length_pos.mpr hl |>.ne'
  rw [npMean, list_sum_const h, mul_comm, mul_div_assoc, div_self hlen, mul_one]

lemma covB_self_const {l : List ℝ} {c : ℝ} (h : ∀ x ∈ l, x = c) :
    covB l l = 0 := by
  rcases eq_or_ne l [] with rfl | hl
  · simp [covB]
  · have hmean : npMean l = c := npMean_const h hl
    have hzero : ((l.zip l).map fun p => (p.1 - npMean l) * (p.2 - npMean l)).sum = 0 := by
      apply List.sum_eq_zero
      intro x hx
      rcases List.mem_map.mp hx with ⟨p, hp, rfl⟩
      have h1 : p.1 = c := h p.1 (List.of_mem_zip hp).1
      have h2 : p.2 = c := h p.2 (List.of_mem_zip hp).2
      rw [h1, h2, hmean, sub_self, mul_zero]
    rw [covB, hzero, zero_div]

lemma zip_self_eq {α : Type} (l : List α) : l.zip l = l.map fun a => (a, a) := by
  induction l with
  | nil => rfl
  | cons a t ih => simp [List.zip_cons_cons, ih]

lemma covB_self_nonneg (l : List ℝ) : 0 ≤ covB l l := by
  apply div_nonneg _ (by positivity)
  apply List.sum_nonneg
  intro x hx
  rcases List.mem_map.mp hx with ⟨p, hp, rfl⟩
  rw [zip_self_eq] at hp
  rcases List.mem_map.mp hp with ⟨a, _, rfl⟩
  exact mul_self_nonneg _

lemma roundHalfEven_nonneg {x : ℝ} (hx : 0 ≤ x) : 0 ≤ roundHalfEven x := by
  have hfl : (0 : ℤ) ≤ ⌊x⌋ := Int.floor_nonneg.mpr hx
  unfold roundHalfEven
  split_ifs <;> omega

lemma roundHalfEven_dist (x : ℝ) : |(roundHalfEven x : ℝ) - x| ≤ 1 / 2 := by
  have h0 : 0 ≤ x - ⌊x⌋ := by
    have := Int.floor_le x
    linarith
  have h1 : x - ⌊x⌋ < 1 := by
    have := Int.lt_floor_add_one x
    linarith
  unfold roundHalfEven
  split_ifs with hlt hgt heven
  · rw [abs_sub_comm, abs_of_nonneg h0]; linarith
  · push_cast
    rw [abs_of_nonneg (by linarith)]
    linarith
  · rw [abs_sub_comm, abs_of_nonneg h0]; linarith
  · push_cast
    rw [abs_of_nonneg (by linarith)]
    linarith

lemma roundHalfEven_tie_even {x : ℝ} (h : Int.fract x = 1 / 2) :
    Even (roundHalfEven x) := by
  have hfr : x - ⌊x⌋ = 1 / 2 := by unfold Int.fract at h; exact h
  unfold roundHalfEven
  rw [hfr]
  rw [if_neg (by norm_num), if_neg (by norm_num)]
  split_ifs with he
  · exact he
  · rw [Int.even_add_one]
    exact he

lemma roundHalfEven_intCast (k : ℤ) : roundHalfEven (k : ℝ) = k := by
  unfold roundHalfEven
  rw [Int.floor_intCast, sub_self, if_pos (by norm_num)]

lemma gatherExcept_ok {ε α : Type} :
    ∀ {n : ℕ} (f : Fin n → Except ε α) (g : Fin n → α),
      (∀ i, f i = .ok (g i)) → gatherExcept f = .ok g := by
  intro n
  induction n with
  | zero =>
    intro f g _
    unfold gatherExcept
    exact congrArg Except.ok (funext fun i => i.elim0)
  | succ n ih =>
    intro f g h
    unfold gatherExcept
    rw [h 0, ih (fun i => f i.succ) (fun i => g i.succ) fun i => h i.succ]
    exact congrArg Except.ok (Fin.cons_self_tail g)

/-- Unfolding `portfolio_beta_weighting` when both retrievals and every
per-ticker regression succeed.  Note there is no hypothesis on the current
portfolio beta: the source performs no zero-beta check. -/
lemma pbw_ok {n : ℕ} (portfolio : Fin n → String × ℝ)
    (total_portfolio_value target_beta : ℝ)
    (currentData : Payload (String → ℝ)) (histData : Payload (List (String → ℝ)))
    (prices : String → ℝ) (data : List (String → ℝ)) (betas : Fin n → ℝ)
    (hsel : selectPriceColumn currentData = .ok prices)
    (hhist : get_historical_data histData = .ok data)
    (hbet : gatherExcept (betaFn portfolio data) = .ok betas) :
    portfolio_beta_weighting portfolio total_portfolio_value target_beta
        currentData histData
      = .ok (resultRows portfolio total_portfolio_value target_beta prices betas) := by
  unfold portfolio_beta_weighting
  simp only [hsel, hhist, hbet]

lemma resultRows_apply {n : ℕ} (portfolio : Fin n → String × ℝ)
    (V tβ : ℝ) (prices : String → ℝ) (betas : Fin n → ℝ) (i : Fin n) :
    resultRows portfolio V tβ prices betas i
      = { ticker := (portfolio i).1
          currentShares := (portfolio i).2
          currentPrice := prices (portfolio i).1
          beta := betas i
          currentWeight := current_weightsOf portfolio prices V i
          adjustedWeight := normalized_weightsOf (new_weightsOf
            (current_weightsOf portfolio prices V)
            (tβ / current_betaOf betas (current_weightsOf portfolio prices V))) i
          newShares := npRound (normalized_weightsOf (new_weightsOf
            (current_weightsOf portfolio prices V)
            (tβ / current_betaOf betas (current_weightsOf portfolio prices V))) i
            * V / prices (portfolio i).1) } := rfl

/-- A uniform nonzero scale factor cancels in the normalization step:
`new_weights / new_weights.sum()` recovers `current_weights`
renormalized by its own sum. -/
lemma normalized_new_weights {n : ℕ} (cw : Fin n → ℝ) (k : ℝ) (hk : k ≠ 0)
    (i : Fin n) :
    normalized_weightsOf (new_weightsOf cw k) i = cw i / ∑ j, cw j := by
  unfold normalized_weightsOf new_weightsOf
  rw [← Finset.sum_mul]
  exact mul_div_mul_right _ _ hk

lemma sum_current_weights_pos {n : ℕ} (portfolio : Fin n → String × ℝ)
    (prices : String → ℝ) (V : ℝ) (hn : 0 < n)
    (hsh : ∀ i, 0 < (portfolio i).2) (hpr : ∀ i, 0 < prices (portfolio i).1)
    (hV : 0 < V) :
    0 < ∑ j, current_weightsOf portfolio prices V j := by
  have : Nonempty (Fin n) := ⟨⟨0, hn⟩⟩
  apply Finset.sum_pos _ Finset.univ_nonempty
  intro i _
  exact div_pos (mul_pos (hsh i) (hpr i)) hV

lemma current_weight_pos {n : ℕ} (portfolio : Fin n → String × ℝ)
    (prices : String → ℝ) (V : ℝ) (i : Fin n)
    (hsh : ∀ i, 0 < (portfolio i).2) (hpr : ∀ i, 0 < prices (portfolio i).1)
    (hV : 0 < V) :
    0 < current_weightsOf portfolio prices V i :=
  div_pos (mul_pos (hsh i) (hpr i)) hV

/-- Evaluation of `linregress` on a series against itself with positive variance:
slope `1`, correlation `1`. -/
lemma linregress_self (xs : List ℝ) (h2 : 2 ≤ xs.length)
    (hvar : 0 < covB xs xs) :
    linregress xs xs = .ok (1, 1) := by
  have hne : ¬(xs.length = 0 ∨ xs.length = 0) := by omega
  have hmaxmin : ¬(npamax xs = npamin xs ∧ 1 < xs.length) := by
    rintro ⟨h, -⟩
    have hconst : ∀ x ∈ xs, x = npamin xs := fun x hx =>
      eq_npamin_of_npamax_eq_npamin h hx
    have := covB_self_const hconst
    linarith
  have hsqrt : Real.sqrt (covB xs xs * covB xs xs) = covB xs xs :=
    Real.sqrt_mul_self hvar.le
  have hslope : covB xs xs / covB xs xs = 1 := div_self hvar.ne'
  unfold linregress rValue
  rw [if_neg hne, if_neg hmaxmin, hsqrt, hslope,
    if_neg hvar.ne', if_neg (by norm_num), if_neg (by norm_num)]

/-- Evaluation of `calculate_beta` on a series against itself with positive variance:
beta `1`, R² `1`. -/
lemma calculate_beta_self_eq (xs : List ℝ) (h2 : 2 ≤ xs.length)
    (hvar : 0 < covB xs xs) :
    calculate_beta xs xs = .ok (1, 1) := by
  unfold calculate_beta
  rw [linregress_self xs h2 hvar]
  norm_num [Except.map]

/-- Whether an `Except` computation succeeded (the call returned instead of
raising). -/
def exceptIsOk {ε α : Type} : Except ε α → Bool
  | .ok _ => true
  | .error _ => false

/-! ## Claim C5: price-field selection -/

/-- C5: `get_historical_data` and the current-price fetch inside
`portfolio_beta_weighting` return the adjusted-close field when present,
otherwise fall back to the plain close field, and fail with the
data-unavailable error exactly when neither field exists. -/
theorem price_field_selection :
    (∀ (α : Type) (d : Payload α) (v : α), d.adjClose = some v →
        get_historical_data d = .ok v ∧ selectPriceColumn d = .ok v)
    ∧ (∀ (α : Type) (d : Payload α) (w : α), d.adjClose = none → d.close = some w →
        get_historical_data d = .ok w ∧ selectPriceColumn d = .ok w)
    ∧ (∀ (α : Type) (d : Payload α),
        (get_historical_data d = .error .noPriceColumns
          ↔ d.adjClose = none ∧ d.close = none))
    ∧ (∀ (n : ℕ) (portfolio : Fin n → String × ℝ) (V tβ : ℝ)
        (cd : Payload (String → ℝ)) (hd : Payload (List (String → ℝ))),
        cd.adjClose = none → cd.close = none →
        portfolio_beta_weighting portfolio V tβ cd hd = .error .noPriceColumns) := by
  refine ⟨?_, ?_, ?_, ?_⟩
  · intro α d v h
    exact ⟨by simp [get_historical_data, h], by simp [selectPriceColumn, h]⟩
  · intro α d w h1 h2
    exact ⟨by simp [get_historical_data, h1, h2], by simp [selectPriceColumn, h1, h2]⟩
  · intro α d
    obtain ⟨a, c⟩ := d
    cases a <;> cases c <;> simp [get_historical_data]
  · intro n portfolio V tβ cd hd h1 h2
    unfold portfolio_beta_weighting
    simp [selectPriceColumn, h1, h2]

/-- Witness for C5 at concrete payloads: adjusted close preferred, close
used as fallback, error exactly when both fields are missing, and the
pipeline propagates the error from the current-price fetch. -/
theorem price_field_selection_witness :
    get_historical_data (⟨some 5, some 6⟩ : Payload ℕ) = .ok 5
    ∧ get_historical_data (⟨none, some 6⟩ : Payload ℕ) = .ok 6
    ∧ get_historical_data (⟨none, none⟩ : Payload ℕ) = .error .noPriceColumns
    ∧ portfolio_beta_weighting (fun _ : Fin 1 => ("A", 10)) 500 1 ⟨none, none⟩
        ⟨none, none⟩ = .error .noPriceColumns := by
  refine ⟨?_, ?_, ?_, ?_⟩
  · exact (price_field_selection.1 ℕ ⟨some 5, some 6⟩ 5 rfl).1
  · exact (price_field_selection.2.1 ℕ ⟨none, some 6⟩ 6 rfl rfl).1
  · exact (price_field_selection.2.2.1 ℕ ⟨none, none⟩).mpr ⟨rfl, rfl⟩
  · exact price_field_selection.2.2.2 1 (fun _ => ("A", 10)) 500 1 ⟨none, none⟩
      ⟨none, none⟩ rfl rfl

/-! ## Claim C3: short price tables -/

/-- C3 (amended): given fewer than 2 price rows, `calculate_returns`
returns the empty return series.  The source performs no row-count check
and raises no error: `np.log(data / data.shift(1)).dropna()` simply drops
every (NaN) row. -/
theorem calculate_returns_short_input (data : List (String → ℝ))
    (h : data.length < 2) : calculate_returns data = [] := by
  cases data with
  | nil => rfl
  | cons a t =>
    cases t with
    | nil => rfl
    | cons b t' => simp [List.length_cons] at h; omega

/-- Counterexample to C3 as stated: on a one-row price table the returns
calculator returns the empty series (a value), it does not fail. -/
theorem calculate_returns_one_row_returns_empty :
    calculate_returns [fun _ => (1 : ℝ)] = [] := rfl

/-- Witness for the amended C3 at a concrete one-row table. -/
theorem calculate_returns_short_input_witness :
    ([fun _ => (2 : ℝ)] : List (String → ℝ)).length < 2
    ∧ calculate_returns [fun _ => (2 : ℝ)] = [] :=
  ⟨by norm_num, calculate_returns_short_input [fun _ => (2 : ℝ)] (by norm_num)⟩

/-! ## Claim C6: log-return formula -/

/-- C6: on an all-positive price table with `n ≥ 2` rows,
`calculate_returns` has length `n - 1`, entry `j` equals
`ln (price[j+1] / price[j])` (the first, undefined row is dropped), and
every entry is a genuine finite logarithm: `exp` of it recovers the
(positive) price ratio. -/
theorem calculate_returns_spec (data : List (String → ℝ))
    (h2 : 2 ≤ data.length) (hpos : ∀ row ∈ data, ∀ t, 0 < row t) :
    (calculate_returns data).length = data.length - 1
    ∧ ∀ (j : ℕ), j + 1 < data.length → ∀ (ticker : String),
        (calculate_returns data).getD j (fun _ => 0) ticker
          = Real.log (data.getD (j + 1) (fun _ => 0) ticker
              / data.getD j (fun _ => 0) ticker)
        ∧ Real.exp ((calculate_returns data).getD j (fun _ => 0) ticker)
          = data.getD (j + 1) (fun _ => 0) ticker
              / data.getD j (fun _ => 0) ticker := by
  have hlen : (calculate_returns data).length = data.length - 1 := by
    unfold calculate_returns
    rw [List.length_map, List.length_zip, List.length_tail]
    omega
  refine ⟨hlen, ?_⟩
  intro j hj ticker
  have hjr : j < (calculate_returns data).length := by omega
  have hjd : j < data.length := by omega
  have hjt : j < data.tail.length := by rw [List.length_tail]; omega
  have hget : (calculate_returns data).getD j (fun _ => 0)
      = fun t => Real.log (data.get ⟨j + 1, hj⟩ t / data.get ⟨j, hjd⟩ t) := by
    rw [List.getD_eq_getElem _ _ hjr]
    unfold calculate_returns
    simp only [List.getElem_map, List.getElem_zip, List.getElem_tail,
      List.get_eq_getElem]
  have hrat : 0 < data.get ⟨j + 1, hj⟩ ticker / data.get ⟨j, hjd⟩ ticker := by
    apply div_pos
    · exact hpos _ (List.get_mem data (j + 1) hj) ticker
    · exact hpos _ (List.get_mem data j hjd) ticker
  have hD1 : data.getD (j + 1) (fun _ => 0) = data.get ⟨j + 1, hj⟩ := by
    rw [List.getD_eq_getElem _ _ hj, List.get_eq_getElem]
  have hD0 : data.getD j (fun _ => 0) = data.get ⟨j, hjd⟩ := by
    rw [List.getD_eq_getElem _ _ hjd, List.get_eq_getElem]
  rw [hD1, hD0, hget]
  exact ⟨rfl, Real.exp_log hrat⟩

/-- A concrete two-row all-positive price table. -/
noncomputable def exReturnsInput : List (String → ℝ) :=
  [fun _ => 1, fun _ => Real.exp 1]

/-- Witness for C6 at a concrete two-row positive price table. -/
theorem calculate_returns_spec_witness :
    2 ≤ exReturnsInput.length
    ∧ (calculate_returns exReturnsInput).length = exReturnsInput.length - 1
    ∧ (calculate_returns exReturnsInput).getD 0 (fun _ => 0) "A"
        = Real.log (exReturnsInput.getD 1 (fun _ => 0) "A"
            / exReturnsInput.getD 0 (fun _ => 0) "A") := by
  have hpos : ∀ row ∈ exReturnsInput, ∀ t : String, 0 < row t := by
    intro row hrow t
    simp only [exReturnsInput, List.mem_cons, List.not_mem_nil, or_false] at hrow
    rcases hrow with rfl | rfl
    · norm_num
    · exact Real.exp_pos 1
  have h2 : 2 ≤ exReturnsInput.length := by norm_num [exReturnsInput]
  obtain ⟨hlen, hform⟩ := calculate_returns_spec exReturnsInput h2 hpos
  exact ⟨h2, hlen, (hform 0 (by norm_num [exReturnsInput]) "A").1⟩

/-! ## Claim C7: beta of a series against itself -/

/-- C7: for a return series of length ≥ 2 with strictly positive variance,
regressing the series against itself gives beta `1.0` and R² `1.0`. -/
theorem calculate_beta_benchmark_self (xs : List ℝ) (h2 : 2 ≤ xs.length)
    (hvar : 0 < covB xs xs) : calculate_beta xs xs = .ok (1, 1) :=
  calculate_beta_self_eq xs h2 hvar

lemma covB_pair_eval : covB [1, 2] [1, 2] = 1 / 4 := by
  norm_num [covB, npMean, List.zip_cons_cons, List.zip_nil_right]

/-- Witness for C7 at the concrete series `[1, 2]`. -/
theorem calculate_beta_benchmark_self_witness :
    2 ≤ ([1, 2] : List ℝ).length ∧ 0 < covB [1, 2] [1, 2]
      ∧ calculate_beta [1, 2] [1, 2] = .ok (1, 1) := by
  have hvar : 0 < covB [1, 2] [1, 2] := by rw [covB_pair_eval]; norm_num
  exact ⟨by norm_num, hvar,
    calculate_beta_benchmark_self [1, 2] (by norm_num) hvar⟩

/-! ## Claim C4: degenerate regressions -/

/-- C4 (amended): `calculate_beta` fails with the identical-x
(degenerate-regression) error whenever the benchmark series has all
identical values and at least 2 observations, and with the empty-input
error when the benchmark is empty; but with exactly one paired observation
it does **not** fail — scipy's identical-x check requires `len(x) > 1`, so
the call returns (with an undefined 0/0 slope) instead of raising. -/
theorem calculate_beta_degenerate (asset bench : List ℝ)
    (hlen : asset.length = bench.length) :
    (bench = [] → calculate_beta asset bench = .error .emptyInput)
    ∧ (∀ c : ℝ, (∀ x ∈ bench, x = c) → 2 ≤ bench.length →
        calculate_beta asset bench = .error .identicalX)
    ∧ (bench.length = 1 → exceptIsOk (calculate_beta asset bench) = true) := by
  refine ⟨?_, ?_, ?_⟩
  · rintro rfl
    simp [calculate_beta, linregress, Except.map]
  · intro c hc h2
    have hcond : ¬(bench.length = 0 ∨ asset.length = 0) := by omega
    unfold calculate_beta linregress
    rw [if_neg hcond, if_pos ⟨npamax_eq_npamin_of_const hc, by omega⟩]
    rfl
  · intro h1
    have hcond : ¬(bench.length = 0 ∨ asset.length = 0) := by omega
    have hcond2 : ¬(npamax bench = npamin bench ∧ 1 < bench.length) := by
      rintro ⟨-, hgt⟩
      omega
    unfold calculate_beta linregress
    rw [if_neg hcond, if_neg hcond2]
    rfl

/-- Counterexample to C4 as stated: with exactly one paired observation
(`fewer than 2`), `calculate_beta` returns a value instead of failing. -/
theorem calculate_beta_single_observation_ok :
    exceptIsOk (calculate_beta [(7 : ℝ)] [(5 : ℝ)]) = true :=
  (calculate_beta_degenerate [7] [5] rfl).2.2 rfl

/-- Witness for the amended C4: a zero-variance two-point benchmark raises
the identical-x error, an empty input raises the empty-input error. -/
theorem calculate_beta_degenerate_witness :
    calculate_beta [(0 : ℝ), 1] [(1 : ℝ), 1] = .error .identicalX
    ∧ calculate_beta ([] : List ℝ) ([] : List ℝ) = .error .emptyInput := by
  have hconst : ∀ x ∈ ([1, 1] : List ℝ), x = 1 := by
    intro x hx
    rcases List.mem_cons.mp hx with rfl | hx
    · rfl
    · simpa using hx
  exact ⟨(calculate_beta_degenerate [0, 1] [1, 1] rfl).2.1 1 hconst (by norm_num),
    (calculate_beta_degenerate [] [] rfl).1 rfl⟩

/-! ## Claim C1: target-beta independence of the output -/

/-- C1: for a positive portfolio with nonzero current portfolio beta and
nonzero target beta, the Adjusted Weight column equals
`current_weights / sum(current_weights)` — the uniform scale
`target_beta / current_beta` cancels in `new_weights / new_weights.sum()` —
and hence the entire result (New Shares included) is identical for every
choice of nonzero target beta. -/
theorem adjusted_weights_independent_of_target {n : ℕ}
    (portfolio : Fin n → String × ℝ) (V tβ tβ' : ℝ)
    (currentData : Payload (String → ℝ)) (histData : Payload (List (String → ℝ)))
    (prices : String → ℝ) (data : List (String → ℝ)) (betas : Fin n → ℝ)
    (hsel : selectPriceColumn currentData = .ok prices)
    (hhist : get_historical_data histData = .ok data)
    (hbet : gatherExcept (betaFn portfolio data) = .ok betas)
    (hn : 0 < n) (hsh : ∀ i, 0 < (portfolio i).2)
    (hpr : ∀ i, 0 < prices (portfolio i).1) (hV : 0 < V)
    (hβ : current_betaOf betas (current_weightsOf portfolio prices V) ≠ 0)
    (ht : tβ ≠ 0) (ht' : tβ' ≠ 0) :
    (∀ rows, portfolio_beta_weighting portfolio V tβ currentData histData
        = .ok rows →
      ∀ i, (rows i).adjustedWeight
        = current_weightsOf portfolio prices V i
            / ∑ j, current_weightsOf portfolio prices V j)
    ∧ portfolio_beta_weighting portfolio V tβ currentData histData
        = portfolio_beta_weighting portfolio V tβ' currentData histData := by
  have hk : tβ / current_betaOf betas (current_weightsOf portfolio prices V) ≠ 0 :=
    div_ne_zero ht hβ
  have hk' : tβ' / current_betaOf betas (current_weightsOf portfolio prices V) ≠ 0 :=
    div_ne_zero ht' hβ
  have hmain := pbw_ok portfolio V tβ currentData histData prices data betas
    hsel hhist hbet
  have hmain' := pbw_ok portfolio V tβ' currentData histData prices data betas
    hsel hhist hbet
  constructor
  · intro rows hrows i
    rw [hmain] at hrows
    injection hrows with h
    subst h
    rw [resultRows_apply]
    exact normalized_new_weights _ _ hk i
  · rw [hmain, hmain']
    congr 1
    funext i
    rw [resultRows_apply, resultRows_apply,
      normalized_new_weights _ _ hk i, normalized_new_weights _ _ hk' i]

/-! ## Claim C2: no zero-beta check -/

/-- C2 (amended): contrary to the spec's `ZeroPortfolioBeta` error, the
source performs no zero-beta check: whenever both retrievals and every
per-ticker regression succeed, `portfolio_beta_weighting` returns a result
table, with no hypothesis on the current portfolio beta — in particular
also when it is exactly 0 (in the float implementation the division then
yields an infinite scale and NaN weights rather than an exception). -/
theorem pbw_returns_result_without_zero_beta_check {n : ℕ}
    (portfolio : Fin n → String × ℝ) (V tβ : ℝ)
    (currentData : Payload (String → ℝ)) (histData : Payload (List (String → ℝ)))
    (prices : String → ℝ) (data : List (String → ℝ)) (betas : Fin n → ℝ)
    (hsel : selectPriceColumn currentData = .ok prices)
    (hhist : get_historical_data histData = .ok data)
    (hbet : gatherExcept (betaFn portfolio data) = .ok betas) :
    portfolio_beta_weighting portfolio V tβ currentData histData
      = .ok (resultRows portfolio V tβ prices betas) :=
  pbw_ok portfolio V tβ currentData histData prices data betas hsel hhist hbet

/-! ## Claim C8: adjusted weights sum to 1 -/

/-- C8: the Adjusted Weight column produced by the rebalancer sums to 1
within a `1e-9` tolerance (in the real-number model the sum is exactly 1),
for positive portfolios with nonzero current beta and nonzero target. -/
theorem adjusted_weights_sum_to_one {n : ℕ}
    (portfolio : Fin n → String × ℝ) (V tβ : ℝ)
    (currentData : Payload (String → ℝ)) (histData : Payload (List (String → ℝ)))
    (prices : String → ℝ) (data : List (String → ℝ)) (betas : Fin n → ℝ)
    (hsel : selectPriceColumn currentData = .ok prices)
    (hhist : get_historical_data histData = .ok data)
    (hbet : gatherExcept (betaFn portfolio data) = .ok betas)
    (hn : 0 < n) (hsh : ∀ i, 0 < (portfolio i).2)
    (hpr : ∀ i, 0 < prices (portfolio i).1) (hV : 0 < V)
    (hβ : current_betaOf betas (current_weightsOf portfolio prices V) ≠ 0)
    (ht : tβ ≠ 0) :
    ∀ rows, portfolio_beta_weighting portfolio V tβ currentData histData
        = .ok rows →
      |(∑ i, (rows i).adjustedWeight) - 1| ≤ 1 / 1000000000 := by
  intro rows hrows
  rw [pbw_ok portfolio V tβ currentData histData prices data betas
    hsel hhist hbet] at hrows
  injection hrows with h
  subst h
  have hk : tβ / current_betaOf betas (current_weightsOf portfolio prices V) ≠ 0 :=
    div_ne_zero ht hβ
  have hsumpos : 0 < ∑ j, current_weightsOf portfolio prices V j :=
    sum_current_weights_pos portfolio prices V hn hsh hpr hV
  have hsum : (∑ i, (resultRows portfolio V tβ prices betas i).adjustedWeight) = 1 := by
    have : ∀ i, (resultRows portfolio V tβ prices betas i).adjustedWeight
        = current_weightsOf portfolio prices V i
            / ∑ j, current_weightsOf portfolio prices V j := by
      intro i
      rw [resultRows_apply]
      exact normalized_new_weights _ _ hk i
    rw [Finset.sum_congr rfl fun i _ => this i, ← Finset.sum_div]
    exact div_self hsumpos.ne'
  rw [hsum]
  norm_num

/-! ## Claim C9: current-weight column -/

/-- C9 (amended): every Current Weight entry equals
`shares × current_price / total_portfolio_value`; when additionally the
caller-supplied total equals the sum of the dollar positions (and is
positive, positions nonnegative), the entries lie in `[0, 1]` and the
column sums to 1.  Because the total is deliberately decoupled from the
positions, neither boundedness nor the unit sum holds in general. -/
theorem current_weight_column {n : ℕ}
    (portfolio : Fin n → String × ℝ) (V tβ : ℝ)
    (currentData : Payload (String → ℝ)) (histData : Payload (List (String → ℝ)))
    (prices : String → ℝ) (data : List (String → ℝ)) (betas : Fin n → ℝ)
    (hsel : selectPriceColumn currentData = .ok prices)
    (hhist : get_historical_data histData = .ok data)
    (hbet : gatherExcept (betaFn portfolio data) = .ok betas) :
    ∀ rows, portfolio_beta_weighting portfolio V tβ currentData histData
        = .ok rows →
      (∀ i, (rows i).currentWeight
        = (portfolio i).2 * prices (portfolio i).1 / V)
      ∧ ((∀ i, 0 ≤ (portfolio i).2 * prices (portfolio i).1) → 0 < V →
          V = ∑ i, positionsOf portfolio prices i →
          (∀ i, 0 ≤ (rows i).currentWeight ∧ (rows i).currentWeight ≤ 1)
          ∧ ∑ i, (rows i).currentWeight = 1) := by
  intro rows hrows
  rw [pbw_ok portfolio V tβ currentData histData prices data betas
    hsel hhist hbet] at hrows
  injection hrows with h
  subst h
  have hform : ∀ i, (resultRows portfolio V tβ prices betas i).currentWeight
      = (portfolio i).2 * prices (portfolio i).1 / V := fun i => by
    rw [resultRows_apply]; rfl
  refine ⟨hform, ?_⟩
  intro hpos hV hVsum
  have hple : ∀ i : Fin n, positionsOf portfolio prices i
      ≤ ∑ j, positionsOf portfolio prices j := by
    intro i
    exact Finset.single_le_sum (fun j _ => hpos j) (Finset.mem_univ i)
  constructor
  · intro i
    rw [hform i]
    constructor
    · exact div_nonneg (hpos i) hV.le
    · rw [div_le_one hV, hVsum]
      exact hple i
  · rw [Finset.sum_congr rfl fun i _ => hform i, ← Finset.sum_div]
    rw [show (∑ i, (portfolio i).2 * prices (portfolio i).1)
        = ∑ i, positionsOf portfolio prices i from rfl, ← hVsum]
    exact div_self hV.ne'

/-! ## Claim C10: new-share rounding -/

/-- C10: every New Shares entry equals
`np.round(adjusted_weight × total_portfolio_value / current_price)` with
ties rounded half to even, and (for positive portfolios with nonzero
current and target betas) is a non-negative whole number at distance at
most 1/2 from the unrounded share count. -/
theorem new_shares_rounding {n : ℕ}
    (portfolio : Fin n → String × ℝ) (V tβ : ℝ)
    (currentData : Payload (String → ℝ)) (histData : Payload (List (String → ℝ)))
    (prices : String → ℝ) (data : List (String → ℝ)) (betas : Fin n → ℝ)
    (hsel : selectPriceColumn currentData = .ok prices)
    (hhist : get_historical_data histData = .ok data)
    (hbet : gatherExcept (betaFn portfolio data) = .ok betas)
    (hn : 0 < n) (hsh : ∀ i, 0 < (portfolio i).2)
    (hpr : ∀ i, 0 < prices (portfolio i).1) (hV : 0 < V)
    (hβ : current_betaOf betas (current_weightsOf portfolio prices V) ≠ 0)
    (ht : tβ ≠ 0) :
    ∀ rows, portfolio_beta_weighting portfolio V tβ currentData histData
        = .ok rows →
      ∀ i, (rows i).newShares
          = npRound ((rows i).adjustedWeight * V / (rows i).currentPrice)
        ∧ ∃ z : ℤ, (rows i).newShares = (z : ℝ) ∧ 0 ≤ z
            ∧ |(z : ℝ) - (rows i).adjustedWeight * V / (rows i).currentPrice| ≤ 1 / 2
            ∧ (Int.fract ((rows i).adjustedWeight * V / (rows i).currentPrice)
                = 1 / 2 → Even z) := by
  intro rows hrows i
  rw [pbw_ok portfolio V tβ currentData histData prices data betas
    hsel hhist hbet] at hrows
  injection hrows with h
  subst h
  have hk : tβ / current_betaOf betas (current_weightsOf portfolio prices V) ≠ 0 :=
    div_ne_zero ht hβ
  have hsumpos : 0 < ∑ j, current_weightsOf portfolio prices V j :=
    sum_current_weights_pos portfolio prices V hn hsh hpr hV
  have hwpos : 0 ≤ normalized_weightsOf (new_weightsOf
      (current_weightsOf portfolio prices V)
      (tβ / current_betaOf betas (current_weightsOf portfolio prices V))) i := by
    rw [normalized_new_weights _ _ hk i]
    exact (div_nonneg (current_weight_pos portfolio prices V i hsh hpr hV).le
      hsumpos.le)
  rw [resultRows_apply]
  refine ⟨rfl, roundHalfEven _, rfl, ?_, roundHalfEven_dist _, roundHalfEven_tie_even⟩
  apply roundHalfEven_nonneg
  exact div_nonneg (mul_nonneg hwpos hV.le) (hpr i).le

/-! ## Concrete example data -/

/-- Example portfolio `{A: 10 shares}` (the spec's §8 scenario). -/
def exPortfolio : Fin 1 → String × ℝ := fun _ => ("A", 10)

/-- Example current prices: every ticker trades at 50. -/
noncomputable def exPrices : String → ℝ := fun _ => 50

/-- Example current-price payload with an `Adj Close` column. -/
noncomputable def exCurrentData : Payload (String → ℝ) := ⟨some exPrices, none⟩

/-- Example historical table: three rows, every column `[1, e, e³]`, so
every column (asset and SPY alike) has log returns `[1, 2]`. -/
noncomputable def exHistRows : List (String → ℝ) :=
  [fun _ => 1, fun _ => Real.exp 1, fun _ => Real.exp 3]

/-- Example historical payload carrying `exHistRows` as `Adj Close`. -/
noncomputable def exHistData : Payload (List (String → ℝ)) := ⟨some exHistRows, none⟩

/-- The betas computed from `exHistRows`: every ticker has beta 1. -/
noncomputable def exBetas : Fin 1 → ℝ := fun _ => 1

lemma exReturns_eval : calculate_returns exHistRows
    = [fun _ => (1 : ℝ), fun _ => 2] := by
  unfold calculate_returns exHistRows
  simp only [List.tail_cons, List.zip_cons_cons, List.zip_nil_right,
    List.map_cons, List.map_nil]
  congr 1
  · funext t
    rw [div_one, Real.log_exp]
  · congr 1
    funext t
    rw [← Real.exp_sub, Real.log_exp]
    norm_num

lemma exBetaFn_eval {n : ℕ} (p : Fin n → String × ℝ) (i : Fin n) :
    betaFn p exHistRows i = .ok 1 := by
  unfold betaFn
  rw [exReturns_eval]
  simp only [List.map_cons, List.map_nil]
  rw [calculate_beta_self_eq [1, 2] (by norm_num)
    (by rw [covB_pair_eval]; norm_num)]
  rfl

lemma exGather {n : ℕ} (p : Fin n → String × ℝ) :
    gatherExcept (betaFn p exHistRows) = .ok fun _ => 1 :=
  gatherExcept_ok _ _ fun i => exBetaFn_eval p i

lemma exCurrentBeta :
    current_betaOf exBetas (current_weightsOf exPortfolio exPrices 500) = 1 := by
  unfold current_betaOf current_weightsOf positionsOf exBetas exPortfolio exPrices
  rw [Fin.sum_univ_one]
  norm_num

/-- Historical table realizing a zero beta: the SPY column is `[1, e, 1]`
(returns `[1, -1]`) while every other column is constant `1`
(returns `[0, 0]`), so every asset's regression slope is 0. -/
noncomputable def exHistRowsZ : List (String → ℝ) :=
  [fun _ => 1, fun t => if t = "SPY" then Real.exp 1 else 1, fun _ => 1]

/-- Historical payload carrying `exHistRowsZ` as `Adj Close`. -/
noncomputable def exHistDataZ : Payload (List (String → ℝ)) := ⟨some exHistRowsZ, none⟩

lemma exReturnsZ_eval : calculate_returns exHistRowsZ
    = [fun t => if t = "SPY" then (1 : ℝ) else 0,
       fun t => if t = "SPY" then (-1 : ℝ) else 0] := by
  unfold calculate_returns exHistRowsZ
  simp only [List.tail_cons, List.zip_cons_cons, List.zip_nil_right,
    List.map_cons, List.map_nil]
  congr 1
  · funext t
    by_cases h : t = "SPY"
    · rw [if_pos h, if_pos h, div_one, Real.log_exp]
    · rw [if_neg h, if_neg h, div_one, Real.log_one]
  · congr 1
    funext t
    by_cases h : t = "SPY"
    · rw [if_pos h, if_pos h, one_div, Real.log_inv, Real.log_exp]
    · rw [if_neg h, if_neg h, div_one, Real.log_one]

lemma exRegZ : calculate_beta [(0 : ℝ), 0] [(1 : ℝ), -1] = .ok (0, 0) := by
  have hxx : covB [(1 : ℝ), -1] [(1 : ℝ), -1] = 1 := by
    norm_num [covB, npMean, List.zip_cons_cons, List.zip_nil_right]
  have hxy : covB [(1 : ℝ), -1] [(0 : ℝ), 0] = 0 := by
    norm_num [covB, npMean, List.zip_cons_cons, List.zip_nil_right]
  have hyy : covB [(0 : ℝ), 0] [(0 : ℝ), 0] = 0 := by
    norm_num [covB, npMean, List.zip_cons_cons, List.zip_nil_right]
  have hmaxmin : ¬(npamax [(1 : ℝ), -1] = npamin [(1 : ℝ), -1]
      ∧ 1 < ([(1 : ℝ), -1] : List ℝ).length) := by
    rintro ⟨h, -⟩
    norm_num [npamax, npamin] at h
  unfold calculate_beta linregress rValue
  rw [if_neg (by norm_num), if_neg hmaxmin, hxx, hxy, hyy]
  norm_num [Except.map]

lemma exBetaFnZ_eval {n : ℕ} (p : Fin n → String × ℝ)
    (hp : ∀ i, (p i).1 ≠ "SPY") (i : Fin n) :
    betaFn p exHistRowsZ i = .ok 0 := by
  unfold betaFn
  rw [exReturnsZ_eval]
  simp only [List.map_cons, List.map_nil]
  rw [if_neg (hp i), if_neg (hp i)]
  simp only [if_true]
  rw [exRegZ]
  rfl

lemma exGatherZ : gatherExcept (betaFn exPortfolio exHistRowsZ) = .ok fun _ => 0 :=
  gatherExcept_ok _ _ fun i =>
    exBetaFnZ_eval exPortfolio (fun _ => by simp [exPortfolio]) i

/-! ## C1 witness -/

/-- Witness for C1: on the concrete one-asset example the full results of
targets 2 and 3 coincide, and the adjusted weight equals the renormalized
current weight. -/
theorem adjusted_weights_independent_of_target_witness :
    portfolio_beta_weighting exPortfolio 500 2 exCurrentData exHistData
      = portfolio_beta_weighting exPortfolio 500 3 exCurrentData exHistData :=
  (adjusted_weights_independent_of_target exPortfolio 500 2 3 exCurrentData
    exHistData exPrices exHistRows exBetas rfl rfl (exGather exPortfolio)
    (by norm_num) (fun i => by norm_num [exPortfolio])
    (fun i => by norm_num [exPrices]) (by norm_num)
    (by rw [exCurrentBeta]; norm_num) (by norm_num) (by norm_num)).2

/-! ## C2 counterexample and witness -/

/-- Counterexample to C2 as stated: a concrete input whose computed current
portfolio beta is exactly 0, on which `portfolio_beta_weighting`
nevertheless returns a result instead of failing. -/
theorem pbw_zero_beta_no_failure :
    current_betaOf (fun _ => 0) (current_weightsOf exPortfolio exPrices 500) = 0
    ∧ exceptIsOk (portfolio_beta_weighting exPortfolio 500 1 exCurrentData
        exHistDataZ) = true := by
  constructor
  · unfold current_betaOf
    rw [Fin.sum_univ_one, zero_mul]
  · rw [pbw_ok exPortfolio 500 1 exCurrentData exHistDataZ exPrices exHistRowsZ
      (fun _ => 0) rfl rfl exGatherZ]
    rfl

/-- Witness for the amended C2 at the zero-beta input. -/
theorem pbw_returns_result_without_zero_beta_check_witness :
    portfolio_beta_weighting exPortfolio 500 1 exCurrentData exHistDataZ
      = .ok (resultRows exPortfolio 500 1 exPrices fun _ => 0) :=
  pbw_returns_result_without_zero_beta_check exPortfolio 500 1 exCurrentData
    exHistDataZ exPrices exHistRowsZ (fun _ => 0) rfl rfl exGatherZ

/-! ## C8 witness -/

/-- Witness for C8 at the concrete one-asset example. -/
theorem adjusted_weights_sum_to_one_witness :
    |(∑ i, (resultRows exPortfolio 500 2 exPrices exBetas i).adjustedWeight) - 1|
      ≤ 1 / 1000000000 :=
  adjusted_weights_sum_to_one exPortfolio 500 2 exCurrentData exHistData exPrices
    exHistRows exBetas rfl rfl (exGather exPortfolio) (by norm_num)
    (fun i => by norm_num [exPortfolio]) (fun i => by norm_num [exPrices])
    (by norm_num) (by rw [exCurrentBeta]; norm_num) (by norm_num)
    (resultRows exPortfolio 500 2 exPrices exBetas)
    (pbw_ok exPortfolio 500 2 exCurrentData exHistData exPrices exHistRows
      exBetas rfl rfl (exGather exPortfolio))

/-! ## C9 counterexample and witness -/

/-- A portfolio whose dollar position (2 shares at price 3) exceeds the
caller-supplied total portfolio value 4. -/
def exPortfolioBig : Fin 1 → String × ℝ := fun _ => ("A", 2)

/-- Current prices for the oversized-position example: everything at 3. -/
noncomputable def exPricesSmall : String → ℝ := fun _ => 3

/-- Current-price payload for the oversized-position example. -/
noncomputable def exCurrentDataSmall : Payload (String → ℝ) := ⟨some exPricesSmall, none⟩

/-- Counterexample to C9 as stated: with a caller-supplied total (4) below
the position value (2 × 3 = 6), the returned Current Weight is 3/2 — not
in `0..1` — and the column sums to 3/2, not 1.  The total is deliberately
decoupled from the sum of positions, so the claimed invariant fails. -/
theorem current_weight_exceeds_one :
    portfolio_beta_weighting exPortfolioBig 4 1 exCurrentDataSmall exHistData
      = .ok (resultRows exPortfolioBig 4 1 exPricesSmall fun _ => 1)
    ∧ (resultRows exPortfolioBig 4 1 exPricesSmall (fun _ => 1) 0).currentWeight
        = 3 / 2
    ∧ ¬((resultRows exPortfolioBig 4 1 exPricesSmall (fun _ => 1) 0).currentWeight
        ≤ 1)
    ∧ (∑ i, (resultRows exPortfolioBig 4 1 exPricesSmall (fun _ => 1) i).currentWeight)
        ≠ 1 := by
  have hok := pbw_ok exPortfolioBig 4 1 exCurrentDataSmall exHistData
    exPricesSmall exHistRows (fun _ => 1) rfl rfl (exGather exPortfolioBig)
  have hw : (resultRows exPortfolioBig 4 1 exPricesSmall (fun _ => 1) 0).currentWeight
      = 3 / 2 := by
    rw [resultRows_apply]
    unfold current_weightsOf positionsOf exPortfolioBig exPricesSmall
    norm_num
  refine ⟨hok, hw, by rw [hw]; norm_num, ?_⟩
  rw [Fin.sum_univ_one, hw]
  norm_num

/-- Witness for the amended C9 at the concrete example where the supplied
total (500) does equal the sum of positions (10 × 50). -/
theorem current_weight_column_witness :
    (resultRows exPortfolio 500 2 exPrices exBetas 0).currentWeight
      = (exPortfolio 0).2 * exPrices (exPortfolio 0).1 / 500
    ∧ (∑ i, (resultRows exPortfolio 500 2 exPrices exBetas i).currentWeight) = 1 := by
  have hmain := current_weight_column exPortfolio 500 2 exCurrentData exHistData
    exPrices exHistRows exBetas rfl rfl (exGather exPortfolio)
    (resultRows exPortfolio 500 2 exPrices exBetas)
    (pbw_ok exPortfolio 500 2 exCurrentData exHistData exPrices exHistRows
      exBetas rfl rfl (exGather exPortfolio))
  refine ⟨hmain.1 0, ?_⟩
  have hVsum : (500 : ℝ) = ∑ i, positionsOf exPortfolio exPrices i := by
    rw [Fin.sum_univ_one]
    unfold positionsOf exPortfolio exPrices
    norm_num
  exact (hmain.2 (fun i => by norm_num [exPortfolio, exPrices]) (by norm_num)
    hVsum).2

/-! ## C10 witness -/

/-- Witness for C10 at the concrete one-asset example. -/
theorem new_shares_rounding_witness :
    (resultRows exPortfolio 500 2 exPrices exBetas 0).newShares
      = npRound ((resultRows exPortfolio 500 2 exPrices exBetas 0).adjustedWeight
          * 500 / (resultRows exPortfolio 500 2 exPrices exBetas 0).currentPrice) :=
  (new_shares_rounding exPortfolio 500 2 exCurrentData exHistData exPrices
    exHistRows exBetas rfl rfl (exGather exPortfolio) (by norm_num)
    (fun i => by norm_num [exPortfolio]) (fun i => by norm_num [exPrices])
    (by norm_num) (by rw [exCurrentBeta]; norm_num) (by norm_num)
    (resultRows exPortfolio 500 2 exPrices exBetas)
    (pbw_ok exPortfolio 500 2 exCurrentData exHistData exPrices exHistRows
      exBetas rfl rfl (exGather exPortfolio)) 0).1
